import Mathlib

/-
Verification of the MERlin pixel-based decoder (merlin/util/decoding.py) and
the cross-tile cell-boundary deduplication tasks (merlin/analysis/segment.py).

The decoder side is embedded over the real numbers: numpy float arrays become
lists of reals (or functions from index tuples to reals for images), and
numpy's elementwise operations become list maps/zips.  The extraction and
deduplication side only uses field operations and comparisons, so it is
embedded over the rationals, which keeps every definition computable.
-/

namespace Merlin

/-! ## Basic vector operations (numpy equivalents) -/

/-- Sum of squares of a vector, the quantity under the square root in
`np.linalg.norm`. -/
def sumSq (x : List ℝ) : ℝ := (x.map (fun a => a * a)).sum

/-- L2 norm of a vector: `np.linalg.norm(x)`. -/
noncomputable def l2norm (x : List ℝ) : ℝ := Real.sqrt (sumSq x)

/-- Euclidean distance between two vectors, as used by the exact
1-nearest-neighbor search. -/
noncomputable def eucDist (x y : List ℝ) : ℝ :=
  Real.sqrt (((x.zip y).map (fun p => (p.1 - p.2) * (p.1 - p.2))).sum)

/-- decoding.py `normalize`: divide by the L2 norm when it is positive,
otherwise return the vector unchanged. -/
noncomputable def normalize (x : List ℝ) : List ℝ :=
  if 0 < l2norm x then x.map (fun a => a / l2norm x) else x

/-! ## Decoding matrix construction -/

/-- decoding.py `PixelBasedDecoder._calculate_normalized_barcodes` with
`includeErrors=False` (the branch taken at decoder construction): the
magnitudes are computed and zipped with the barcode set, and each barcode is
passed through `normalize` (the zipped magnitude is unused by the source
comprehension). -/
noncomputable def _calculate_normalized_barcodes
    (barcodeSet : List (List ℝ)) : List (List ℝ) :=
  ((barcodeSet.zip (barcodeSet.map l2norm)).map (fun xm => normalize xm.1))

/-- Modelled from the spec: `merlin.util.binary.flip_bit` (module not under
src/) produces, for a 0/1 barcode vector, the variant with the single bit at
position `i` flipped. -/
def flip_bit (b : List ℝ) (i : ℕ) : List ℝ := b.set i (1 - b.getD i 0)

/-- decoding.py `PixelBasedDecoder._calculate_normalized_barcodes` with
`includeErrors=True`: for each barcode the source builds the stack consisting
of the barcode followed by its single-bit-flip variants, divides each stack
row by its own L2 norm, and appends the resulting matrix to a list; the final
`np.array` of that list is a 3-dimensional array, modelled here as a list of
matrices. -/
noncomputable def _calculate_normalized_barcodes_includeErrors
    (barcodeSet : List (List ℝ)) : List (List (List ℝ)) :=
  barcodeSet.map (fun b =>
    let bset := b :: (List.range b.length).map (fun i => flip_bit b i)
    (bset.zip (bset.map l2norm)).map (fun xm => xm.1.map (fun v => v / xm.2)))

/-! ## PixelBasedDecoder construction -/

/-- State held by a constructed `PixelBasedDecoder`. -/
structure PixelBasedDecoder where
  decodingMatrix : List (List ℝ)
  barcodeCount : ℕ
  bitCount : ℕ
  scaleFactors : List ℝ
  backgrounds : List ℝ
  refactorAreaThreshold : ℕ

/-- decoding.py `PixelBasedDecoder.__init__`.  The codebook is given as its
barcode matrix (`codebook.get_barcodes()`).  Python constructors can raise, so
the embedding returns `Except`; the source body contains no validation and no
raise statement, so every input produces `Except.ok`.  `barcodeCount` and
`bitCount` are the two components of `decodingMatrix.shape`; absent
`scaleFactors` default to all ones and absent `backgrounds` to all zeros. -/
noncomputable def PixelBasedDecoder_init (codebook : List (List ℝ))
    (scaleFactors backgrounds : Option (List ℝ)) :
    Except String PixelBasedDecoder :=
  let M := _calculate_normalized_barcodes codebook
  Except.ok
    { decodingMatrix := M
      barcodeCount := M.length
      bitCount := (M.headD []).length
      scaleFactors :=
        match scaleFactors with
        | none => List.replicate (M.headD []).length 1
        | some v => v
      backgrounds :=
        match backgrounds with
        | none => List.replicate (M.headD []).length 0
        | some v => v
      refactorAreaThreshold := 4 }

/-! ## decode_pixels -/

/-- Transpose of a rectangular bit-major array (bits x pixels) into a
pixel-major array (pixels x bits), the `np.transpose` step of
`decode_pixels`. -/
def transposeTraces (rows : List (List ℝ)) : List (List ℝ) :=
  (List.range (rows.headD []).length).map
    (fun j => rows.map (fun r => r.getD j 0))

/-- decode_pixels step 2 (`scaledPixelTraces`): subtract each bit's
background and divide by its scale factor
(`(p-b)/s for p, s, b in zip(pixelTraces, scaleFactors, backgrounds)`),
then transpose to per-pixel traces. -/
noncomputable def scaled_traces (pixelTraces : List (List ℝ))
    (scaleFactors backgrounds : List ℝ) : List (List ℝ) :=
  transposeTraces ((pixelTraces.zip (scaleFactors.zip backgrounds)).map
    (fun psb => psb.1.map (fun v => (v - psb.2.2) / psb.2.1)))

/-- Scan of the remaining candidate rows for the exact 1-nearest-neighbor
search; keeps the earliest row attaining the minimum Euclidean distance. -/
noncomputable def nearestAux (x : List ℝ) :
    List (List ℝ) → ℕ → ℕ × ℝ → ℕ × ℝ
  | [], _, best => best
  | r :: rs, i, best =>
      nearestAux x rs (i + 1)
        (if eucDist x r < best.2 then (i, eucDist x r) else best)

/-- Exact 1-nearest-neighbor search of `x` against the rows of `M`
(`NearestNeighbors(n_neighbors=1).kneighbors`): the index of the nearest row
and the distance to it.  sklearn raises on an empty fit set, so the `[]`
branch is a junk value outside every claim. -/
noncomputable def nearest (M : List (List ℝ)) (x : List ℝ) : ℕ × ℝ :=
  match M with
  | [] => (0, 0)
  | r :: rs => nearestAux x rs 1 (0, eucDist x r)

/-- The four results of `decode_pixels`, in flattened (per-pixel list) form.
The source reshapes these flat arrays back to the 2D image shape (and returns
`normalizedPixelTraces` bit-major); the reshape is a bijective relabeling of
positions that the claims quantify over pointwise, so the flat form is kept
here. -/
structure DecodeResult where
  decodedImage : List ℤ
  pixelMagnitudes : List ℝ
  normalizedPixelTraces : List (List ℝ)
  distances : List ℝ

/-- decoding.py `PixelBasedDecoder.decode_pixels`, starting from the output
of step 1: `filteredTraces` is the bit-major stack of per-bit Gaussian
low-pass filtered images, already flattened over pixels
(`np.reshape(filteredImages, ...)`); the Gaussian blur itself is a pure
per-bit convolution that none of the claims constrain.  Steps mirrored here:
scale/background correction and transposition (`scaled_traces`), per-pixel L2
magnitudes with the zero-magnitude clamp
(`pixelMagnitudes[pixelMagnitudes == 0] = 1`), normalization by the clamped
magnitude, the 1-nearest-neighbor assignment under `distanceThreshold`, and
the final overwrite `decodedImage[pixelMagnitudes < magnitudeThreshold] = -1`.
The decoded labels are `np.int16` in the source; barcode indices are far
below 2^15, so plain integers model them. -/
noncomputable def decode_pixels (decodingMatrix : List (List ℝ))
    (filteredTraces : List (List ℝ)) (scaleFactors backgrounds : List ℝ)
    (distanceThreshold magnitudeThreshold : ℝ) : DecodeResult :=
  let scaled := scaled_traces filteredTraces scaleFactors backgrounds
  let pixelMagnitudes :=
    scaled.map (fun t => if l2norm t = 0 then 1 else l2norm t)
  let normalizedPixelTraces :=
    List.zipWith (fun t m => t.map (fun v => v / m)) scaled pixelMagnitudes
  let nn := normalizedPixelTraces.map (fun t => nearest decodingMatrix t)
  let decoded0 :=
    nn.map (fun p =>
      if p.2 ≤ distanceThreshold then (p.1 : ℤ) else -1)
  let decodedImage :=
    List.zipWith (fun d m => if m < magnitudeThreshold then (-1 : ℤ) else d)
      decoded0 pixelMagnitudes
  { decodedImage := decodedImage
    pixelMagnitudes := pixelMagnitudes
    normalizedPixelTraces := normalizedPixelTraces
    distances := nn.map (fun p => p.2) }

/-- The clamped magnitude of one scaled pixel trace. -/
noncomputable def pixelMagnitude (t : List ℝ) : ℝ :=
  if l2norm t = 0 then 1 else l2norm t

/-- One scaled pixel trace divided by its clamped magnitude. -/
noncomputable def normalizedTrace (t : List ℝ) : List ℝ :=
  t.map (fun v => v / pixelMagnitude t)

/-- The final decoded label of one scaled pixel trace: `-1` when the clamped
magnitude is below the magnitude threshold, otherwise the nearest row index
when its distance is within the distance threshold, otherwise `-1`. -/
noncomputable def pixelLabel (M : List (List ℝ))
    (distanceThreshold magnitudeThreshold : ℝ) (t : List ℝ) : ℤ :=
  if pixelMagnitude t < magnitudeThreshold then -1
  else if (nearest M (normalizedTrace t)).2 ≤ distanceThreshold
    then ((nearest M (normalizedTrace t)).1 : ℤ) else -1

/-! ## Barcode extraction (skimage regionprops model, over the rationals)

The extraction path (`extract_barcodes_with_index`, `_position_within_crop`,
`_bc_properties_to_dict`) only performs field operations and comparisons on
the image values, so it is embedded over ℚ, keeping every definition
computable.  Images are functions from coordinate index lists to values. -/

/-- One connected region as produced by
`measure.regionprops(measure.label(decodedImage == barcodeIndex))`: the list
of its pixel coordinates (`properties.coords`), each coordinate an index
list (length 2 for a 2D decoded image, 3 for a 3D one). -/
structure RegionProps where
  coords : List (List ℕ)
deriving DecidableEq

/-- `properties.area`: the number of pixels of the region. -/
def RegionProps.area (p : RegionProps) : ℕ := p.coords.length

/-- Mean of a list of rationals (`np.mean`). -/
def qmean (l : List ℚ) : ℚ := l.sum / l.length

/-- Minimum of a nonempty list of rationals (`np.min`; numpy raises on an
empty array, the `[]` branch is a junk value outside every claim). -/
def qmin : List ℚ → ℚ
  | [] => 0
  | a :: t => t.foldl min a

/-- Maximum of a nonempty list of rationals (`np.max`). -/
def qmax : List ℚ → ℚ
  | [] => 0
  | a :: t => t.foldl max a

/-- `properties.centroid`: the unweighted per-axis mean of the region's
pixel coordinates. -/
def RegionProps.centroid (p : RegionProps) : List ℚ :=
  (List.range (p.coords.headD []).length).map
    (fun a => qmean (p.coords.map (fun c => ((c.getD a 0 : ℕ) : ℚ))))

/-- `properties.weighted_centroid` with the magnitude image as the intensity
weight: per-axis intensity-weighted mean of the region's coordinates. -/
def RegionProps.weighted_centroid (mag : List ℕ → ℚ) (p : RegionProps) :
    List ℚ :=
  (List.range (p.coords.headD []).length).map
    (fun a => (p.coords.map (fun c => mag c * ((c.getD a 0 : ℕ) : ℚ))).sum /
      (p.coords.map mag).sum)

/-- `properties.mean_intensity` over the magnitude image. -/
def RegionProps.mean_intensity (mag : List ℕ → ℚ) (p : RegionProps) : ℚ :=
  qmean (p.coords.map mag)

/-- `properties.max_intensity` over the magnitude image. -/
def RegionProps.max_intensity (mag : List ℕ → ℚ) (p : RegionProps) : ℚ :=
  qmax (p.coords.map mag)

/-- decoding.py `PixelBasedDecoder._position_within_crop`: a 2-component
position must lie strictly more than `cropWidth` inside the image edges on
axes 0 and 1; a longer position is checked on axes 1 and 2. -/
def _position_within_crop (position : List ℚ) (cropWidth : ℚ)
    (imageSize : List ℚ) : Bool :=
  if position.length = 2 then
    decide (cropWidth < position.getD 0 0 ∧
        position.getD 0 0 < imageSize.getD 0 0 - cropWidth ∧
        cropWidth < position.getD 1 0 ∧
        position.getD 1 0 < imageSize.getD 1 0 - cropWidth)
  else
    decide (cropWidth < position.getD 1 0 ∧
        position.getD 1 0 < imageSize.getD 1 0 - cropWidth ∧
        cropWidth < position.getD 2 0 ∧
        position.getD 2 0 < imageSize.getD 2 0 - cropWidth)

/-- The output record of `_bc_properties_to_dict`: one row of the barcode
call table. -/
structure BarcodeRecord where
  barcode_id : ℤ
  fov : ℕ
  mean_intensity : ℚ
  max_intensity : ℚ
  area : ℕ
  mean_distance : ℚ
  min_distance : ℚ
  x : ℚ
  y : ℚ
  z : ℚ
  global_x : ℚ
  global_y : ℚ
  global_z : ℚ
  cell_index : ℤ
  intensities : List ℚ
deriving DecidableEq

/-- decoding.py `PixelBasedDecoder._bc_properties_to_dict`.  The weighted
centroid (skimage row/column order) is reordered to a [z, x, y] list:
`[zIndex, c, r]` in the 2D branch and `[z, c, r]` in the 3D branch; the
global centroid applies the optional aligner's `fov_coordinates_to_global`
(identity when absent); per-pixel distances are read from the distance image
at the region's coordinates; per-bit mean intensities follow the 2D trace
layout `pixelTraces[i, x0, x1]` (the 3D layout differs only in index order,
which no claim constrains); the cell index queries the optional segmenter's
`get_cell_containing_position` with components 0 and 1 of the global
centroid, and defaults to -1. -/
def _bc_properties_to_dict (p : RegionProps) (bcIndex : ℤ) (fov : ℕ)
    (distances : List ℕ → ℚ) (pixelTraces : ℕ → List ℕ → ℚ) (bitCount : ℕ)
    (mag : List ℕ → ℚ) (zIndex : ℚ)
    (globalAligner : Option (ℕ → List ℚ → List ℚ))
    (segmenter : Option (ℚ → ℚ → ℤ)) : BarcodeRecord :=
  let inputCentroid := p.weighted_centroid mag
  let centroid :=
    if inputCentroid.length = 2 then
      [zIndex, inputCentroid.getD 1 0, inputCentroid.getD 0 0]
    else
      [inputCentroid.getD 0 0, inputCentroid.getD 2 0, inputCentroid.getD 1 0]
  let globalCentroid :=
    match globalAligner with
    | some f => f fov centroid
    | none => centroid
  let d := p.coords.map distances
  { barcode_id := bcIndex
    fov := fov
    mean_intensity := p.mean_intensity mag
    max_intensity := p.max_intensity mag
    area := p.area
    mean_distance := qmean d
    min_distance := qmin d
    x := centroid.getD 1 0
    y := centroid.getD 2 0
    z := centroid.getD 0 0
    global_x := globalCentroid.getD 1 0
    global_y := globalCentroid.getD 2 0
    global_z := globalCentroid.getD 0 0
    cell_index :=
      match segmenter with
      | some g => g (globalCentroid.getD 0 0) (globalCentroid.getD 1 0)
      | none => -1
    intensities :=
      (List.range bitCount).map
        (fun i => qmean (p.coords.map (fun c => pixelTraces i c))) }

/-- decoding.py `PixelBasedDecoder.extract_barcodes_with_index`,
parametrized by the result of the connected-component labeling: `properties`
is the list of connected regions of the mask `decodedImage == barcodeIndex`
produced by `measure.regionprops(measure.label(...))`.  A region reaches the
output only when its *unweighted* centroid (`p.centroid`) passes
`_position_within_crop` and its area is at least `minimumArea`. -/
def extract_barcodes_with_index (barcodeIndex : ℤ)
    (properties : List RegionProps) (mag : List ℕ → ℚ)
    (distances : List ℕ → ℚ) (pixelTraces : ℕ → List ℕ → ℚ) (bitCount : ℕ)
    (fov : ℕ) (cropWidth : ℚ) (imageSize : List ℚ) (zIndex : ℚ)
    (globalAligner : Option (ℕ → List ℚ → List ℚ))
    (segmenter : Option (ℚ → ℚ → ℤ)) (minimumArea : ℕ) :
    List BarcodeRecord :=
  (properties.filter (fun p =>
      _position_within_crop p.centroid cropWidth imageSize &&
      decide (minimumArea ≤ p.area))).map
    (fun p => _bc_properties_to_dict p barcodeIndex fov distances pixelTraces
      bitCount mag zIndex globalAligner segmenter)

/-! ## extract_refactors (over ℝ, numpy NaN modelled by Option)

The calibration pass masks array entries with `np.nan` and later averages
with `np.nanmean`.  NaN is a floating-point sentinel with no real-number
counterpart, so masked entries are modelled as `none : Option ℝ`;
`np.nanmean` becomes the mean of the `some` entries (`none` when all entries
are masked), `np.mean` of a vector containing NaN is NaN (`none`), and a
division whose divisor is zero or whose operand is NaN — non-finite in numpy
— is likewise `none`. -/

/-- One connected region of the mask `decodedImage == b` as used by the
calibration pass, with 2D pixel coordinates. -/
structure RefRegion where
  coords : List (ℕ × ℕ)
deriving DecidableEq

/-- Mean of a list of reals (`np.mean`; numpy yields NaN on an empty array,
real division by zero yields the junk value 0, outside every claim). -/
noncomputable def rmean (l : List ℝ) : ℝ := l.sum / l.length

/-- Minimum of a nonempty list of reals (`np.min`). -/
noncomputable def rmin : List ℝ → ℝ
  | [] => 0
  | a :: t => t.foldl min a

/-- The qualifying regions of barcode `b` in `extract_refactors`: connected
regions of `decodedImage == b` with area at least
`refactorAreaThreshold = 4`. -/
def qualifyingRegions (regionsOf : ℕ → List RefRegion) (b : ℕ) :
    List RefRegion :=
  (regionsOf b).filter (fun br => 4 ≤ br.coords.length)

/-- `meanPixelTrace`: the region's reconstructed un-normalized mean per-bit
trace — the mean over the region's coordinates of
`normalizedPixelTraces[:, y0, y1] * pixelMagnitudes[y0, y1]` — minus the
background refactors. -/
noncomputable def meanPixelTrace (traces : ℕ → ℕ × ℕ → ℝ)
    (mags : ℕ × ℕ → ℝ) (bitCount : ℕ) (backgroundRefactors : List ℝ)
    (br : RefRegion) : List ℝ :=
  (List.range bitCount).map (fun i =>
    rmean (br.coords.map (fun y => traces i y * mags y)) -
      backgroundRefactors.getD i 0)

/-- `normPixelTrace = meanPixelTrace / np.linalg.norm(meanPixelTrace)`:
direct division by the norm (for a zero norm numpy produces non-finite
values with a warning; real division yields the junk value 0, outside every
claim). -/
noncomputable def normPixelTrace (traces : ℕ → ℕ × ℕ → ℝ)
    (mags : ℕ × ℕ → ℝ) (bitCount : ℕ) (backgroundRefactors : List ℝ)
    (br : RefRegion) : List ℝ :=
  (meanPixelTrace traces mags bitCount backgroundRefactors br).map
    (fun v => v /
      l2norm (meanPixelTrace traces mags bitCount backgroundRefactors br))

/-- Row `b` of `sumPixelTraces` after the region loop: starting from zeros,
each qualifying region adds its normalized reconstructed trace divided by
the region count `barcodesSeen[b]`. -/
noncomputable def sumPixelTracesRow (regionsOf : ℕ → List RefRegion)
    (traces : ℕ → ℕ × ℕ → ℝ) (mags : ℕ × ℕ → ℝ) (bitCount : ℕ)
    (backgroundRefactors : List ℝ) (b : ℕ) : List ℝ :=
  (qualifyingRegions regionsOf b).foldl
    (fun acc br => List.zipWith (fun a v => a + v) acc
      ((normPixelTrace traces mags bitCount backgroundRefactors br).map
        (fun v => v / ((qualifyingRegions regionsOf b).length : ℝ))))
    (List.replicate bitCount 0)

/-- Row `b` of `sumPixelTraces` after the off-bit mask
`sumPixelTraces[self._decodingMatrix == 0] = np.nan`: entries at positions
where the decoding matrix is 0 become NaN (`none`). -/
noncomputable def maskedSumPixelTracesRow (M : List (List ℝ))
    (regionsOf : ℕ → List RefRegion) (traces : ℕ → ℕ × ℕ → ℝ)
    (mags : ℕ × ℕ → ℝ) (bitCount : ℕ) (backgroundRefactors : List ℝ)
    (b : ℕ) : List (Option ℝ) :=
  List.zipWith (fun mv sv => if mv = (0 : ℝ) then none else some sv)
    (M.getD b [])
    (sumPixelTracesRow regionsOf traces mags bitCount backgroundRefactors b)

/-- `onBitIntensity = np.nanmean(sumPixelTraces, axis=0)`: per bit, the mean
of the non-NaN entries over all barcode rows, NaN (`none`) when every row is
masked at that bit. -/
noncomputable def onBitIntensity (M : List (List ℝ))
    (regionsOf : ℕ → List RefRegion) (traces : ℕ → ℕ × ℕ → ℝ)
    (mags : ℕ × ℕ → ℝ) (bitCount : ℕ) (backgroundRefactors : List ℝ) :
    List (Option ℝ) :=
  (List.range bitCount).map (fun i =>
    let col := (List.range M.length).filterMap (fun b =>
      (maskedSumPixelTracesRow M regionsOf traces mags bitCount
        backgroundRefactors b).getD i none)
    if col.isEmpty then none else some (rmean col))

/-- `refactors = onBitIntensity / np.mean(onBitIntensity)`: the plain mean
is NaN as soon as one entry is NaN, and the division is non-finite when the
mean is zero (the all-degenerate 0/0 case) — both modelled as `none`. -/
noncomputable def scaleRefactors (M : List (List ℝ))
    (regionsOf : ℕ → List RefRegion) (traces : ℕ → ℕ × ℕ → ℝ)
    (mags : ℕ × ℕ → ℝ) (bitCount : ℕ) (backgroundRefactors : List ℝ) :
    List (Option ℝ) :=
  let ob := onBitIntensity M regionsOf traces mags bitCount
    backgroundRefactors
  let meanAll : Option ℝ :=
    if ob.all (fun o => o.isSome) then some (rmean (ob.filterMap id))
    else none
  ob.map (fun o =>
    match o, meanAll with
    | some v, some m => if m = 0 then none else some (v / m)
    | _, _ => none)

/-- decoding.py `PixelBasedDecoder._extract_backgrounds`, with the same
`regionsOf` parametrization; regions qualify at area >= 5; each region
contributes its per-bit minimum of the reconstructed trace; off-bit sums are
divided by the number of off-bit occurrences weighted by regions seen. -/
noncomputable def _extract_backgrounds (M : List (List ℝ))
    (regionsOf : ℕ → List RefRegion) (traces : ℕ → ℕ × ℕ → ℝ)
    (mags : ℕ × ℕ → ℝ) : List ℝ :=
  let bitCount := (M.headD []).length
  let bgRegions := fun (b : ℕ) =>
    (regionsOf b).filter (fun br => 5 ≤ br.coords.length)
  let sumMin := fun (b : ℕ) =>
    (bgRegions b).foldl
      (fun acc br => List.zipWith (fun a v => a + v) acc
        ((List.range bitCount).map (fun i =>
          rmin (br.coords.map (fun y => traces i y * mags y)))))
      (List.replicate bitCount 0)
  (List.range bitCount).map (fun i =>
    ((List.range M.length).map (fun b =>
      if 0 < (M.getD b []).getD i 0 then 0 else (sumMin b).getD i 0)).sum /
    ((List.range M.length).map (fun b =>
      (if (M.getD b []).getD i 0 = 0 then (1 : ℝ) else 0) *
        ((bgRegions b).length : ℝ))).sum)

/-- decoding.py `PixelBasedDecoder.extract_refactors`, parametrized by the
connected regions of `decodedImage == b` for every barcode `b`.  Returns the
triple (scale refactors, background refactors, barcodesSeen).  The function
is total: no input raises an error; degenerate inputs only produce NaN
(`none`) refactor entries. -/
noncomputable def extract_refactors (M : List (List ℝ))
    (regionsOf : ℕ → List RefRegion) (traces : ℕ → ℕ × ℕ → ℝ)
    (mags : ℕ × ℕ → ℝ) (extractBackgrounds : Bool) :
    List (Option ℝ) × List ℝ × List ℕ :=
  let bitCount := (M.headD []).length
  let backgroundRefactors :=
    if extractBackgrounds then _extract_backgrounds M regionsOf traces mags
    else List.replicate bitCount 0
  (scaleRefactors M regionsOf traces mags bitCount backgroundRefactors,
    backgroundRefactors,
    (List.range M.length).map (fun b => (qualifyingRegions regionsOf b).length))

/-! ## Cross-tile cell-boundary deduplication (segment.py, over ℚ) -/

/-- One candidate cell record from a tile's segmentation as consumed by the
dedup tasks: feature id, originating field of view, bounding box (a list of
scalars, well-formed when of length 4), volume, and 2D global centroid. -/
structure SpatialFeature where
  fid : ℕ
  fov : ℕ
  boundingBox : List ℚ
  volume : ℚ
  centroid : ℚ × ℚ
deriving DecidableEq

/-- segment.py `CleanCellBoundaries._intial_clean`: keep only cells whose
bounding box resolves to exactly 4 scalars and whose volume is positive. -/
def _intial_clean (currentCells : List SpatialFeature) :
    List SpatialFeature :=
  currentCells.filter
    (fun cell => cell.boundingBox.length == 4 && decide (0 < cell.volume))

/-- Modelled from the spec: `merlin.util.spatialfeature.simple_clean_cells`
(module not under src/), the step-1 clean used by
`CleanCellBoundaries._run_analysis`: "discard candidate cells with a
malformed bounding box (must resolve to exactly 4 scalars) or non-positive
volume" — the same filter as `_intial_clean`. -/
def simple_clean_cells (cells : List SpatialFeature) :
    List SpatialFeature :=
  cells.filter
    (fun cell => cell.boundingBox.length == 4 && decide (0 < cell.volume))

/-- Modelled from the spec: the node set of the overlap graph built by
`CleanCellBoundaries._run_analysis` via
`merlin.util.spatialfeature.construct_graph` (module not under src/): a
graph node is added per cell surviving `simple_clean_cells`, over all
fields of view. -/
def overlapGraphNodes (perFovCells : List (List SpatialFeature)) :
    List SpatialFeature :=
  (perFovCells.map simple_clean_cells).flatten

/-- The global extent of one field of view
(`alignTask.fov_global_extent` as assembled by `get_fov_boxes`): the fov id
with (minx, miny, maxx, maxy). -/
structure FovBox where
  fov : ℕ
  minx : ℚ
  miny : ℚ
  maxx : ℚ
  maxy : ℚ
deriving DecidableEq

/-- Membership of a point in a fov's closed bounding box. -/
def FovBox.contains (bx : FovBox) (p : ℚ × ℚ) : Bool :=
  decide (bx.minx ≤ p.1 ∧ p.1 ≤ bx.maxx ∧ bx.miny ≤ p.2 ∧ p.2 ≤ bx.maxy)

/-- Center of a fov box. -/
def FovBox.center (bx : FovBox) : ℚ × ℚ :=
  ((bx.minx + bx.maxx) / 2, (bx.miny + bx.maxy) / 2)

/-- Squared Euclidean distance between two points of the plane. -/
def sqDist (p q : ℚ × ℚ) : ℚ :=
  (p.1 - q.1) ^ 2 + (p.2 - q.2) ^ 2

/-- Modelled from the spec (§4.5 step 4, tile assignment): among the fovs
whose box contains the cell's centroid, the one whose center is nearest to
the centroid (the earliest on a tie, scanning the fixed global fov list); a
cell contained in no box keeps its originating fov. -/
def assignedFOV (boxes : List FovBox) (c : SpatialFeature) : ℕ :=
  let cands := boxes.filter (fun bx => bx.contains c.centroid)
  match cands.foldl
    (fun best bx =>
      match best with
      | none => some bx
      | some bb =>
          if sqDist bx.center c.centroid < sqDist bb.center c.centroid
          then some bx else some bb)
    none with
  | none => c.fov
  | some bx => bx.fov

/-- Modelled from the spec (§4.5 step 3): the overlap-graph edge relation,
parametrized by the geometric boundary-intersection test `intersects` (the
shapely geometry check, external to src/): two distinct cells from
different fovs are joined when either orientation of the test reports an
intersection. -/
def cellAdj (intersects : SpatialFeature → SpatialFeature → Bool)
    (c d : SpatialFeature) : Bool :=
  decide (c ≠ d) && decide (c.fov ≠ d.fov) &&
    (intersects c d || intersects d c)

/-- One expansion step of a connected component inside the cell set `s`:
adjoin every cell of `s` adjacent to the current set. -/
def componentStep (intersects : SpatialFeature → SpatialFeature → Bool)
    (s : Finset SpatialFeature) (t : Finset SpatialFeature) :
    Finset SpatialFeature :=
  t ∪ s.filter (fun d => ∃ e ∈ t, cellAdj intersects e d = true)

/-- The connected component of `c` in the overlap graph on `s`: the
expansion step iterated `s.card` times from the singleton. -/
def componentOf (intersects : SpatialFeature → SpatialFeature → Bool)
    (s : Finset SpatialFeature) (c : SpatialFeature) :
    Finset SpatialFeature :=
  (componentStep intersects s)^[s.card] {c}

/-- Modelled from the spec (§4.5 step 5): the resolution priority — a cell
whose originating fov equals its assigned fov is preferred; the fallback
tie-break is larger volume, then lower feature id.  `beats boxes d c` holds
when `d` is strictly preferred to `c`. -/
def beats (boxes : List FovBox) (d c : SpatialFeature) : Bool :=
  let fd := assignedFOV boxes d == d.fov
  let fc := assignedFOV boxes c == c.fov
  (fd && !fc) ||
    (fd == fc && (decide (c.volume < d.volume) ||
      (d.volume == c.volume && decide (d.fid < c.fid))))

/-- Modelled from the spec: the Dedup Engine of
`CleanCellBoundaries._run_analysis` together with the spatialfeature
helpers `construct_tree`, `construct_graph` and `remove_overlapping_cells`
(module not under src/): clean every tile's cells, build the overlap graph
on the surviving set, and keep, per connected component, the cells beaten
by no other member under the spec's deterministic resolution order; each
survivor contributes the record (cell_id, originalFOV, assignedFOV).  The
spatial index only prefilters the geometric intersection test, so it adds
no observable behavior to this model. -/
def dedupEngine (intersects : SpatialFeature → SpatialFeature → Bool)
    (boxes : List FovBox) (cells : List SpatialFeature) :
    Finset (ℕ × ℕ × ℕ) :=
  let s := (simple_clean_cells cells).toFinset
  (s.filter (fun c =>
      ¬ ∃ d ∈ componentOf intersects s c, beats boxes d c = true)).image
    (fun c => (c.fid, c.fov, assignedFOV boxes c))

/-! ## Helper lemmas -/

theorem sumSq_nonneg (x : List ℝ) : 0 ≤ sumSq x := by
  induction x with
  | nil => simp [sumSq]
  | cons a l ih =>
    simp only [sumSq, List.map_cons, List.sum_cons]
    have : 0 ≤ a * a := mul_self_nonneg a
    simp only [sumSq] at ih
    linarith

theorem l2norm_nonneg (x : List ℝ) : 0 ≤ l2norm x := Real.sqrt_nonneg _

theorem sumSq_pos_of_mem {x : List ℝ} {a : ℝ} (hmem : a ∈ x) (ha : a ≠ 0) :
    0 < sumSq x := by
  induction x with
  | nil => simp at hmem
  | cons b l ih =>
    simp only [sumSq, List.map_cons, List.sum_cons]
    rcases List.mem_cons.mp hmem with hb | hl
    · subst hb
      have h1 : 0 < a * a := mul_self_pos.mpr ha
      have h2 : 0 ≤ sumSq l := sumSq_nonneg l
      simp only [sumSq] at h2
      linarith
    · have h1 : 0 < sumSq l := ih hl
      have h2 : 0 ≤ b * b := mul_self_nonneg b
      simp only [sumSq] at h1
      linarith

theorem sumSq_eq_zero_of_all_zero {x : List ℝ} (h : ∀ a ∈ x, a = 0) :
    sumSq x = 0 := by
  induction x with
  | nil => simp [sumSq]
  | cons b l ih =>
    have hb : b = 0 := h b (List.mem_cons_self b l)
    have hl : sumSq l = 0 := ih (fun a ha => h a (List.mem_cons_of_mem b ha))
    simp only [sumSq, List.map_cons, List.sum_cons] at hl ⊢
    simp [hb, hl]

theorem l2norm_pos_of_mem {x : List ℝ} {a : ℝ} (hmem : a ∈ x) (ha : a ≠ 0) :
    0 < l2norm x :=
  Real.sqrt_pos.mpr (sumSq_pos_of_mem hmem ha)

theorem sumSq_map_div (x : List ℝ) (c : ℝ) :
    sumSq (x.map (fun a => a / c)) = sumSq x / (c * c) := by
  induction x with
  | nil => simp [sumSq]
  | cons b l ih =>
    simp only [sumSq, List.map_cons, List.sum_cons] at ih ⊢
    rw [ih]
    by_cases hc : c = 0
    · simp [hc]
    · field_simp

/-- A vector with a nonzero entry, divided elementwise by its own L2 norm,
has L2 norm 1. -/
theorem l2norm_self_normalized {x : List ℝ} (h : 0 < l2norm x) :
    l2norm (x.map (fun a => a / l2norm x)) = 1 := by
  have hs : 0 < sumSq x := by
    by_contra hns
    push_neg at hns
    have : l2norm x = 0 := by
      simp only [l2norm]
      exact Real.sqrt_eq_zero_of_nonpos hns
    rw [this] at h
    exact lt_irrefl 0 h
  have hcc : l2norm x * l2norm x = sumSq x :=
    Real.mul_self_sqrt (le_of_lt hs)
  rw [show l2norm (x.map (fun a => a / l2norm x)) =
        Real.sqrt (sumSq (x.map (fun a => a / l2norm x))) from rfl,
    sumSq_map_div, hcc, div_self (ne_of_gt hs)]
  exact Real.sqrt_one

theorem normalize_of_all_zero {x : List ℝ} (h : ∀ a ∈ x, a = 0) :
    normalize x = x := by
  have h0 : l2norm x = 0 := by
    simp only [l2norm, sumSq_eq_zero_of_all_zero h]
    exact Real.sqrt_zero
  simp [normalize, h0]

theorem normalize_length (x : List ℝ) : (normalize x).length = x.length := by
  simp only [normalize]
  split <;> simp

theorem zip_map_self_map {α β γ : Type} (l : List α) (f : α → β)
    (g : α × β → γ) :
    ((l.zip (l.map f)).map g) = l.map (fun a => g (a, f a)) := by
  induction l with
  | nil => simp
  | cons a t ih => simp [ih]

theorem zipWith_self_map {α β γ : Type} (l : List α) (f : α → β)
    (h : α → β → γ) :
    List.zipWith h l (l.map f) = l.map (fun a => h a (f a)) := by
  induction l with
  | nil => simp
  | cons a t ih => simp [ih]

theorem zipWith_map_map {α β γ δ : Type} (l : List α) (f : α → β)
    (g : α → γ) (h : β → γ → δ) :
    List.zipWith h (l.map f) (l.map g) = l.map (fun a => h (f a) (g a)) := by
  induction l with
  | nil => simp
  | cons a t ih => simp [ih]

theorem decode_pixels_pixelMagnitudes (M ft : List (List ℝ))
    (sf bg : List ℝ) (dt mt : ℝ) :
    (decode_pixels M ft sf bg dt mt).pixelMagnitudes =
      (scaled_traces ft sf bg).map pixelMagnitude := rfl

theorem decode_pixels_normalizedPixelTraces (M ft : List (List ℝ))
    (sf bg : List ℝ) (dt mt : ℝ) :
    (decode_pixels M ft sf bg dt mt).normalizedPixelTraces =
      (scaled_traces ft sf bg).map normalizedTrace := by
  simp only [decode_pixels]
  rw [zipWith_self_map]
  rfl

theorem decode_pixels_distances (M ft : List (List ℝ)) (sf bg : List ℝ)
    (dt mt : ℝ) :
    (decode_pixels M ft sf bg dt mt).distances =
      (scaled_traces ft sf bg).map
        (fun t => (nearest M (normalizedTrace t)).2) := by
  simp only [decode_pixels]
  rw [zipWith_self_map, List.map_map, List.map_map]
  rfl

theorem decode_pixels_decodedImage (M ft : List (List ℝ))
    (sf bg : List ℝ) (dt mt : ℝ) :
    (decode_pixels M ft sf bg dt mt).decodedImage =
      (scaled_traces ft sf bg).map (pixelLabel M dt mt) := by
  simp only [decode_pixels]
  rw [zipWith_self_map, List.map_map, List.map_map, zipWith_map_map]
  exact List.map_congr_left (fun t _ => rfl)

/-! ## C3 -/

/-- C3: every row of the decoding matrix produced by
`_calculate_normalized_barcodes` (non-error-tolerant mode) is the
`normalize` image of a codebook row; rows with a nonzero entry have L2 norm
1, and all-zero rows pass through unchanged. -/
theorem C3_decoding_matrix_rows_unit_norm (barcodeSet : List (List ℝ))
    (row : List ℝ) (hrow : row ∈ _calculate_normalized_barcodes barcodeSet) :
    ∃ b ∈ barcodeSet, row = normalize b ∧
      ((∃ a ∈ b, a ≠ 0) → l2norm row = 1) ∧
      ((∀ a ∈ b, a = 0) → row = b) := by
  simp only [_calculate_normalized_barcodes] at hrow
  rw [zip_map_self_map] at hrow
  rcases List.mem_map.mp hrow with ⟨b, hb, hrb⟩
  refine ⟨b, hb, hrb.symm, ?_, ?_⟩
  · rintro ⟨a, ha, hane⟩
    have hpos : 0 < l2norm b := l2norm_pos_of_mem ha hane
    rw [← hrb]
    simp only [normalize, if_pos hpos]
    exact l2norm_self_normalized hpos
  · intro hall
    rw [← hrb, normalize_of_all_zero hall]

/-- Witness for C3 at the codebook consisting of the single barcode [3, 4]. -/
theorem C3_witness :
    ∃ b ∈ [[(3 : ℝ), 4]], normalize [(3 : ℝ), 4] = normalize b ∧
      ((∃ a ∈ b, a ≠ 0) → l2norm (normalize [(3 : ℝ), 4]) = 1) ∧
      ((∀ a ∈ b, a = 0) → normalize [(3 : ℝ), 4] = b) := by
  have hmem : normalize [(3 : ℝ), 4] ∈
      _calculate_normalized_barcodes [[(3 : ℝ), 4]] := by
    simp [_calculate_normalized_barcodes]
  exact C3_decoding_matrix_rows_unit_norm [[(3 : ℝ), 4]]
    (normalize [(3 : ℝ), 4]) hmem

/-! ## C1 -/

/-- C1 (amended): for every pixel of the decoded-label image, a label other
than the unassigned sentinel -1 implies the stored distance to the nearest
barcode is at most `distanceThreshold`; and a stored (zero-clamped) magnitude
below `magnitudeThreshold` forces the label to -1.  The original claim's
"pre-normalization magnitude" reading fails on pixels whose raw magnitude is
zero, see the counterexample. -/
theorem C1_label_dist_magnitude (M ft : List (List ℝ)) (sf bg : List ℝ)
    (dt mt : ℝ) (j : ℕ) (v : ℤ) (m : ℝ)
    (hd : (decode_pixels M ft sf bg dt mt).decodedImage[j]? = some v)
    (hm : (decode_pixels M ft sf bg dt mt).pixelMagnitudes[j]? = some m) :
    (v ≠ -1 → ∃ d, (decode_pixels M ft sf bg dt mt).distances[j]? = some d ∧
      d ≤ dt) ∧
    (m < mt → v = -1) := by
  rw [decode_pixels_decodedImage, List.getElem?_map] at hd
  rw [decode_pixels_pixelMagnitudes, List.getElem?_map] at hm
  rw [decode_pixels_distances, List.getElem?_map]
  cases hscaled : (scaled_traces ft sf bg)[j]? with
  | none => rw [hscaled] at hd; simp at hd
  | some t =>
    rw [hscaled] at hd hm
    simp only [Option.map_some'] at hd hm
    have hv : pixelLabel M dt mt t = v := Option.some.inj hd
    have hmm : pixelMagnitude t = m := Option.some.inj hm
    constructor
    · intro hne
      refine ⟨(nearest M (normalizedTrace t)).2, rfl, ?_⟩
      by_cases h1 : pixelMagnitude t < mt
      · exact absurd (by rw [← hv]; simp [pixelLabel, h1]) hne
      · by_cases h2 : (nearest M (normalizedTrace t)).2 ≤ dt
        · exact h2
        · exact absurd (by rw [← hv]; simp [pixelLabel, h1, h2]) hne
    · intro hlt
      rw [← hv]
      simp [pixelLabel, hmm, hlt]

/-- Witness for the amended C1: a one-pixel, two-bit image whose trace is
(5, 0) against the decoding matrix with single row (1, 0), with
distanceThreshold 1/2 and magnitudeThreshold 1; the pixel decodes to label 0
with stored magnitude 5. -/
theorem C1_witness :
    ((0 : ℤ) ≠ -1 →
      ∃ d, (decode_pixels [[(1 : ℝ), 0]] [[5], [0]] [1, 1] [0, 0]
        (1/2) 1).distances[0]? = some d ∧ d ≤ 1/2) ∧
    ((5 : ℝ) < 1 → (0 : ℤ) = -1) := by
  have h25 : Real.sqrt 25 = 5 := by
    rw [show (25 : ℝ) = 5 ^ 2 by norm_num]
    exact Real.sqrt_sq (by norm_num)
  refine C1_label_dist_magnitude [[(1 : ℝ), 0]] [[5], [0]] [1, 1] [0, 0]
    (1/2) 1 0 0 5 ?_ ?_
  · norm_num [decode_pixels, scaled_traces, transposeTraces, show List.range 1 = [0] from rfl,
      l2norm, sumSq, eucDist, nearest, nearestAux, h25, Real.sqrt_zero]
  · norm_num [decode_pixels, scaled_traces, transposeTraces, show List.range 1 = [0] from rfl,
      l2norm, sumSq, h25]

/-- Counterexample to C1 as stated: with magnitudeThreshold 1 (the default)
and distanceThreshold 3/2, a pixel whose scaled trace is the zero vector has
pre-normalization magnitude 0 < 1, yet its decoded label is 0 rather than -1:
the forced-unassigned test `decodedImage[pixelMagnitudes < magnitudeThreshold]`
uses the zero-clamped magnitude 1, which is not below the threshold. -/
theorem C1_counterexample :
    scaled_traces [[(0 : ℝ)], [0]] [1, 1] [0, 0] = [[0, 0]] ∧
    l2norm [(0 : ℝ), 0] < 1 ∧
    (decode_pixels [[(1 : ℝ), 0]] [[0], [0]] [1, 1] [0, 0]
      (3/2) 1).decodedImage = [0] ∧ (0 : ℤ) ≠ -1 := by
  have h1 : scaled_traces [[(0 : ℝ)], [0]] [1, 1] [0, 0] = [[0, 0]] := by
    norm_num [scaled_traces, transposeTraces, show List.range 1 = [0] from rfl]
  refine ⟨h1, ?_, ?_, by decide⟩
  · norm_num [l2norm, sumSq, Real.sqrt_zero]
  · norm_num [decode_pixels, h1, l2norm, sumSq, eucDist, nearest, nearestAux,
      Real.sqrt_zero, Real.sqrt_one]

/-! ## C9 -/

/-- C9: a pixel whose scaled trace has L2 norm 0 gets magnitude 1 in the
returned magnitude image, and its normalized trace is the trace divided by
that 1, so normalization never divides by zero. -/
theorem C9_zero_magnitude_clamped (M ft : List (List ℝ)) (sf bg : List ℝ)
    (dt mt : ℝ) (j : ℕ) (t : List ℝ)
    (ht : (scaled_traces ft sf bg)[j]? = some t) (h0 : l2norm t = 0) :
    (decode_pixels M ft sf bg dt mt).pixelMagnitudes[j]? = some 1 ∧
    (decode_pixels M ft sf bg dt mt).normalizedPixelTraces[j]? =
      some (t.map (fun v => v / 1)) := by
  rw [decode_pixels_pixelMagnitudes, decode_pixels_normalizedPixelTraces,
    List.getElem?_map, List.getElem?_map, ht]
  constructor
  · simp [pixelMagnitude, h0]
  · simp only [Option.map_some']
    simp [normalizedTrace, pixelMagnitude, h0]

/-- Witness for C9 at the one-pixel all-zero image. -/
theorem C9_witness :
    (decode_pixels [[(1 : ℝ), 0]] [[0], [0]] [1, 1] [0, 0]
      (1/2) 1).pixelMagnitudes[0]? = some 1 ∧
    (decode_pixels [[(1 : ℝ), 0]] [[0], [0]] [1, 1] [0, 0]
      (1/2) 1).normalizedPixelTraces[0]? =
      some (([(0 : ℝ), 0]).map (fun v => v / 1)) := by
  refine C9_zero_magnitude_clamped [[(1 : ℝ), 0]] [[0], [0]] [1, 1] [0, 0]
    (1/2) 1 0 [0, 0] ?_ ?_
  · norm_num [scaled_traces, transposeTraces, show List.range 1 = [0] from rfl]
  · norm_num [l2norm, sumSq, Real.sqrt_zero]

/-! ## C4 -/

/-- Counterexample to C4: constructing a decoder over the one-barcode
codebook [[1, 0]] (2 bits) with a length-3 scaleFactors vector succeeds (no
configuration error is raised); the stored scaleFactors length 3 differs from
the decoder's bit count 2. -/
theorem C4_counterexample :
    ((PixelBasedDecoder_init [[(1 : ℝ), 0]] (some [1, 1, 1]) none).toOption.map
      (fun d => (d.scaleFactors.length, d.bitCount))) = some (3, 2) ∧
    (3 : ℕ) ≠ 2 := by
  have hM : _calculate_normalized_barcodes [[(1 : ℝ), 0]] =
      [normalize [(1 : ℝ), 0]] := by
    simp [_calculate_normalized_barcodes]
  refine ⟨?_, by decide⟩
  simp [PixelBasedDecoder_init, hM, Except.toOption, normalize_length]

/-- C4 (amended): `PixelBasedDecoder.__init__` performs no validation of the
supplied scaleFactors or backgrounds: for every codebook and every pair of
optional vectors, construction succeeds and stores the vectors unchanged
(with all-ones / all-zeros defaults when absent); no configuration error is
raised on a length mismatch. -/
theorem C4_no_length_validation (codebook : List (List ℝ))
    (sf bg : Option (List ℝ)) :
    ∃ d, PixelBasedDecoder_init codebook sf bg = Except.ok d ∧
      d.scaleFactors = sf.getD (List.replicate d.bitCount 1) ∧
      d.backgrounds = bg.getD (List.replicate d.bitCount 0) := by
  cases sf with
  | none =>
    cases bg with
    | none => exact ⟨_, rfl, rfl, rfl⟩
    | some w => exact ⟨_, rfl, rfl, rfl⟩
  | some v =>
    cases bg with
    | none => exact ⟨_, rfl, rfl, rfl⟩
    | some w => exact ⟨_, rfl, rfl, rfl⟩

/-! ## C5 -/

/-- C5: on the codebook with barcodes (1,0) and (0,1), the error-tolerant
branch of `_calculate_normalized_barcodes` returns a 3-dimensional stack (a
list of 2 matrices of 3 rows each, shape (2, 3, 2)), not a 2-dimensional
stack of barcodeCount*(bitCount+1) = 6 rows as the function's own docstring
("A 2d numpy array where each row is a normalized barcode") and the claim
describe. -/
theorem C5_includeErrors_shape :
    (_calculate_normalized_barcodes_includeErrors
      [[(1 : ℝ), 0], [0, 1]]).map List.length = [3, 3] ∧
    (_calculate_normalized_barcodes_includeErrors
      [[(1 : ℝ), 0], [0, 1]]).length = 2 ∧
    (2 : ℕ) ≠ 2 * (2 + 1) := by
  refine ⟨?_, ?_, by decide⟩ <;>
    simp [_calculate_normalized_barcodes_includeErrors, List.length_zip]

/-! ## C2 -/

/-- C2 (amended): every call record returned by `extract_barcodes_with_index`
comes from a region of the labeled mask whose *unweighted* centroid passes
the `_position_within_crop` test and whose pixel area is at least
`minimumArea` (and the record's stored area equals that region's area).  The
original claim's reading, with the crop test applied to the record's
intensity-weighted centroid, fails: see the counterexample. -/
theorem C2_crop_and_area_filter (barcodeIndex : ℤ)
    (properties : List RegionProps) (mag : List ℕ → ℚ)
    (distances : List ℕ → ℚ) (pixelTraces : ℕ → List ℕ → ℚ) (bitCount : ℕ)
    (fov : ℕ) (cropWidth : ℚ) (imageSize : List ℚ) (zIndex : ℚ)
    (globalAligner : Option (ℕ → List ℚ → List ℚ))
    (segmenter : Option (ℚ → ℚ → ℤ)) (minimumArea : ℕ) (r : BarcodeRecord)
    (hr : r ∈ extract_barcodes_with_index barcodeIndex properties mag
      distances pixelTraces bitCount fov cropWidth imageSize zIndex
      globalAligner segmenter minimumArea) :
    ∃ p ∈ properties,
      r = _bc_properties_to_dict p barcodeIndex fov distances pixelTraces
        bitCount mag zIndex globalAligner segmenter ∧
      _position_within_crop p.centroid cropWidth imageSize = true ∧
      minimumArea ≤ p.area ∧ r.area = p.area := by
  rcases List.mem_map.mp hr with ⟨p, hp, hrp⟩
  rcases List.mem_filter.mp hp with ⟨hmem, hcond⟩
  rw [Bool.and_eq_true, decide_eq_true_iff] at hcond
  exact ⟨p, hmem, hrp.symm, hcond.1, hcond.2, by rw [← hrp]; rfl⟩

/-- Witness for the amended C2: a single one-pixel region at (3, 3) of a
10 x 10 image with crop width 2 survives extraction and satisfies the crop
and area conditions. -/
theorem C2_witness :
    ∃ p ∈ [RegionProps.mk [[3, 3]]],
      _bc_properties_to_dict (RegionProps.mk [[3, 3]]) 0 0 (fun _ => 0)
          (fun _ _ => 0) 2 (fun _ => 1) 0 none none =
        _bc_properties_to_dict p 0 0 (fun _ => 0) (fun _ _ => 0) 2
          (fun _ => 1) 0 none none ∧
      _position_within_crop p.centroid 2 [10, 10] = true ∧
      0 ≤ p.area ∧
      (_bc_properties_to_dict (RegionProps.mk [[3, 3]]) 0 0 (fun _ => 0)
        (fun _ _ => 0) 2 (fun _ => 1) 0 none none).area = p.area :=
  C2_crop_and_area_filter 0 [RegionProps.mk [[3, 3]]] (fun _ => 1)
    (fun _ => 0) (fun _ _ => 0) 2 0 2 [10, 10] 0 none none 0
    (_bc_properties_to_dict (RegionProps.mk [[3, 3]]) 0 0 (fun _ => 0)
      (fun _ _ => 0) 2 (fun _ => 1) 0 none none)
    (by
      have hcen : (RegionProps.mk [[3, 3]]).centroid = [3, 3] := by
        norm_num [RegionProps.centroid, qmean,
          show List.range 2 = [0, 1] from rfl]
      have hcrop : _position_within_crop [(3 : ℚ), 3] 2 [10, 10] = true := by
        simp only [_position_within_crop, List.length_cons,
          List.length_nil, if_pos, decide_eq_true_eq]
        norm_num
      simp [extract_barcodes_with_index, hcen, hcrop, RegionProps.area])

/-- Projection of the emitted y coordinate: for a 2D region, the record's y
is component 0 of the intensity-weighted centroid. -/
theorem bc_properties_y_eq (p : RegionProps) (bcIndex : ℤ) (fov : ℕ)
    (distances : List ℕ → ℚ) (pixelTraces : ℕ → List ℕ → ℚ) (bitCount : ℕ)
    (mag : List ℕ → ℚ) (zIndex : ℚ)
    (globalAligner : Option (ℕ → List ℚ → List ℚ))
    (segmenter : Option (ℚ → ℚ → ℤ))
    (h : (p.weighted_centroid mag).length = 2) :
    (_bc_properties_to_dict p bcIndex fov distances pixelTraces bitCount mag
      zIndex globalAligner segmenter).y =
      (p.weighted_centroid mag).getD 0 0 := by
  simp only [_bc_properties_to_dict, h, if_pos]
  rfl

/-- Counterexample to C2 as stated: a connected vertical region at rows 1-5
of column 5 in a 10 x 10 image, with magnitude weight 1000 at its topmost
pixel and 1 elsewhere.  Its unweighted centroid (3, 5) passes the crop test
with cropWidth 2, so the call is returned; but the returned record's
intensity-weighted centroid has y = 1014/1004 < 2, within cropWidth of the
image boundary. -/
theorem C2_counterexample :
    ∃ r ∈ extract_barcodes_with_index 0
      [RegionProps.mk [[1, 5], [2, 5], [3, 5], [4, 5], [5, 5]]]
      (fun c => if c = [1, 5] then 1000 else 1) (fun _ => 0) (fun _ _ => 0)
      2 0 2 [10, 10] 0 none none 0,
      r.y < 2 := by
  have hcen : (RegionProps.mk
      [[1, 5], [2, 5], [3, 5], [4, 5], [5, 5]]).centroid = [3, 5] := by
    norm_num [RegionProps.centroid, qmean, show List.range 2 = [0, 1] from rfl]
  have hcrop : _position_within_crop [(3 : ℚ), 5] 2 [10, 10] = true := by
    simp only [_position_within_crop, List.length_cons, List.length_nil,
      if_pos, decide_eq_true_eq]
    norm_num
  have hnum : ([[1, 5], [2, 5], [3, 5], [4, 5], [5, 5]].map
      (fun c => (if c = [1, 5] then (1000 : ℚ) else 1) *
        ((c.getD 0 0 : ℕ) : ℚ))).sum = 1014 := by
    norm_num
  have hden : ([[1, 5], [2, 5], [3, 5], [4, 5], [5, 5]].map
      (fun c => if c = [1, 5] then (1000 : ℚ) else 1)).sum = 1004 := by
    norm_num
  have hy : (_bc_properties_to_dict
      (RegionProps.mk [[1, 5], [2, 5], [3, 5], [4, 5], [5, 5]]) 0 0
      (fun _ => 0) (fun _ _ => 0) 2
      (fun c => if c = [1, 5] then 1000 else 1) 0 none none).y =
      1014 / 1004 := by
    rw [bc_properties_y_eq
      (RegionProps.mk [[1, 5], [2, 5], [3, 5], [4, 5], [5, 5]]) 0 0
      (fun _ => 0) (fun _ _ => 0) 2
      (fun c => if c = [1, 5] then 1000 else 1) 0 none none rfl]
    show ([[1, 5], [2, 5], [3, 5], [4, 5], [5, 5]].map
        (fun c => (if c = [1, 5] then (1000 : ℚ) else 1) *
          ((c.getD 0 0 : ℕ) : ℚ))).sum /
      ([[1, 5], [2, 5], [3, 5], [4, 5], [5, 5]].map
        (fun c => if c = [1, 5] then (1000 : ℚ) else 1)).sum = 1014 / 1004
    rw [hnum, hden]
  refine ⟨_bc_properties_to_dict
      (RegionProps.mk [[1, 5], [2, 5], [3, 5], [4, 5], [5, 5]]) 0 0
      (fun _ => 0) (fun _ _ => 0) 2
      (fun c => if c = [1, 5] then 1000 else 1) 0 none none, ?_, ?_⟩
  · simp [extract_barcodes_with_index, hcen, hcrop, RegionProps.area]
  · rw [hy, div_lt_iff₀ (by norm_num : (0 : ℚ) < 1004)]
    norm_num

/-! ## C10 -/

/-- C10: when a segmenter is supplied, the cell index of an extracted call
record is obtained by calling `get_cell_containing_position` with components
0 and 1 of the [z, x, y]-ordered global centroid, i.e. with the record's
global z and global x coordinates. -/
theorem C10_cell_lookup_uses_z_and_x (p : RegionProps) (bcIndex : ℤ)
    (fov : ℕ) (distances : List ℕ → ℚ) (pixelTraces : ℕ → List ℕ → ℚ)
    (bitCount : ℕ) (mag : List ℕ → ℚ) (zIndex : ℚ)
    (globalAligner : Option (ℕ → List ℚ → List ℚ)) (g : ℚ → ℚ → ℤ) :
    (_bc_properties_to_dict p bcIndex fov distances pixelTraces bitCount mag
      zIndex globalAligner (some g)).cell_index =
      g (_bc_properties_to_dict p bcIndex fov distances pixelTraces bitCount
          mag zIndex globalAligner (some g)).global_z
        (_bc_properties_to_dict p bcIndex fov distances pixelTraces bitCount
          mag zIndex globalAligner (some g)).global_x := rfl

/-! ## C6 -/

theorem zipWith_replicate_right {α β γ : Type} (f : α → β → γ) (b : β) :
    ∀ (l : List α) (n : ℕ), l.length = n →
      List.zipWith f l (List.replicate n b) = l.map (fun a => f a b)
  | [], _, _ => by simp
  | a :: t, n, h => by
    cases n with
    | zero => simp at h
    | succ m =>
      simp only [List.replicate_succ, List.zipWith_cons_cons, List.map_cons]
      rw [zipWith_replicate_right f b t m (by simpa using h)]

/-- C6 (amended): a barcode with zero qualifying regions keeps an all-zero
row in `sumPixelTraces`; after the off-bit mask its on-bit entries are
`some 0` — ordinary numbers that remain included in the cross-barcode
`np.nanmean` — and only its off-bit entries are NaN.  (`extract_refactors`
itself is total: even with no qualifying regions anywhere it returns a
triple, with NaN scale refactors from the degenerate 0/0 division, rather
than raising an error — see the counterexample.) -/
theorem C6_zero_region_barcode_row (M : List (List ℝ))
    (regionsOf : ℕ → List RefRegion) (traces : ℕ → ℕ × ℕ → ℝ)
    (mags : ℕ × ℕ → ℝ) (bitCount : ℕ) (bgR : List ℝ) (b : ℕ)
    (hempty : qualifyingRegions regionsOf b = [])
    (hlen : (M.getD b []).length = bitCount) :
    maskedSumPixelTracesRow M regionsOf traces mags bitCount bgR b =
      (M.getD b []).map
        (fun mv => if mv = (0 : ℝ) then none else some 0) := by
  have hsum : sumPixelTracesRow regionsOf traces mags bitCount bgR b =
      List.replicate bitCount 0 := by
    simp [sumPixelTracesRow, hempty]
  rw [maskedSumPixelTracesRow, hsum,
    zipWith_replicate_right _ _ _ _ hlen]

/-- Witness for the amended C6: barcode 1 of the codebook [[1,0],[0,1]] has
no qualifying regions; its masked row is [none, some 0] — `some 0` at its
on-bit, NaN only at its off-bit. -/
theorem C6_witness :
    maskedSumPixelTracesRow [[(1 : ℝ), 0], [0, 1]] (fun _ => [])
        (fun i _ => if i = 0 then 1 else 0) (fun _ => 1) 2
        (List.replicate 2 0) 1 =
      ([[(1 : ℝ), 0], [0, 1]].getD 1 []).map
        (fun mv => if mv = (0 : ℝ) then none else some 0) :=
  C6_zero_region_barcode_row [[(1 : ℝ), 0], [0, 1]] (fun _ => [])
    (fun i _ => if i = 0 then 1 else 0) (fun _ => 1) 2
    (List.replicate 2 0) 1 rfl rfl

/-- Counterexample to C6 as stated: decoding matrix [[1,0],[0,1]]; barcode 0
has one qualifying 4-pixel region of uniform reconstructed trace (1,0);
barcode 1 has zero qualifying regions.  Barcode 1's masked row is
[none, some 0], not all-NaN, so the cross-barcode average at bit 1 is
`some 0` — the zero-region barcode is *included*, not excluded.  And when
every barcode lacks qualifying regions, `extract_refactors` does not fail:
it returns NaN scale refactors (from 0/0), zero backgrounds, and zero
region counts. -/
theorem C6_counterexample :
    maskedSumPixelTracesRow [[(1 : ℝ), 0], [0, 1]]
        (fun b => if b = 0 then [RefRegion.mk [(0, 0), (0, 1), (1, 0), (1, 1)]]
          else [])
        (fun i _ => if i = 0 then 1 else 0) (fun _ => 1) 2
        (List.replicate 2 0) 1 = [none, some 0] ∧
    onBitIntensity [[(1 : ℝ), 0], [0, 1]]
        (fun b => if b = 0 then [RefRegion.mk [(0, 0), (0, 1), (1, 0), (1, 1)]]
          else [])
        (fun i _ => if i = 0 then 1 else 0) (fun _ => 1) 2
        (List.replicate 2 0) = [some 1, some 0] ∧
    extract_refactors [[(1 : ℝ), 0], [0, 1]] (fun _ => [])
        (fun i _ => if i = 0 then 1 else 0) (fun _ => 1) false =
      ([none, none], [0, 0], [0, 0]) := by
  refine ⟨?_, ?_, ?_⟩
  · norm_num [maskedSumPixelTracesRow, sumPixelTracesRow, qualifyingRegions,
      List.replicate_succ]
  · norm_num [onBitIntensity, maskedSumPixelTracesRow, sumPixelTracesRow,
      qualifyingRegions, normPixelTrace, meanPixelTrace, rmean, l2norm,
      sumSq, List.filterMap, show List.range 2 = [0, 1] from rfl,
      Real.sqrt_one]
  · norm_num [extract_refactors, scaleRefactors, onBitIntensity,
      maskedSumPixelTracesRow, sumPixelTracesRow, qualifyingRegions, rmean,
      List.filterMap, show List.range 2 = [0, 1] from rfl,
      List.replicate_succ]

/-! ## C7 -/

/-- C7: a candidate cell whose bounding box does not resolve to exactly 4
scalars, or whose volume is not strictly positive, is silently dropped by
the clean step (`_intial_clean` from segment.py and the spec's
`simple_clean_cells`, both total functions — no error path exists) and
therefore never appears among the overlap graph's nodes. -/
theorem C7_malformed_cells_never_reach_graph (cells : List SpatialFeature)
    (perFovCells : List (List SpatialFeature)) (c : SpatialFeature)
    (hbad : c.boundingBox.length ≠ 4 ∨ c.volume ≤ 0) :
    c ∉ _intial_clean cells ∧ c ∉ overlapGraphNodes perFovCells := by
  have hfilter : ∀ l : List SpatialFeature,
      c ∉ l.filter
        (fun cell => cell.boundingBox.length == 4 &&
          decide (0 < cell.volume)) := by
    intro l hmem
    rcases List.mem_filter.mp hmem with ⟨-, hcond⟩
    simp only [Bool.and_eq_true, beq_iff_eq, decide_eq_true_eq] at hcond
    rcases hbad with h | h
    · exact h hcond.1
    · exact absurd hcond.2 (not_lt.mpr h)
  refine ⟨hfilter cells, ?_⟩
  intro hmem
  rcases List.mem_flatten.mp hmem with ⟨l, hl, hcl⟩
  rcases List.mem_map.mp hl with ⟨fovCells, -, hfc⟩
  rw [← hfc] at hcl
  exact hfilter fovCells hcl

/-- Witness for C7: a cell with a length-3 bounding box is excluded from
the clean output and from the overlap graph nodes. -/
theorem C7_witness :
    SpatialFeature.mk 0 0 [0, 0, 1] 1 (0, 0) ∉
      _intial_clean [SpatialFeature.mk 0 0 [0, 0, 1] 1 (0, 0)] ∧
    SpatialFeature.mk 0 0 [0, 0, 1] 1 (0, 0) ∉
      overlapGraphNodes [[SpatialFeature.mk 0 0 [0, 0, 1] 1 (0, 0)]] :=
  C7_malformed_cells_never_reach_graph
    [SpatialFeature.mk 0 0 [0, 0, 1] 1 (0, 0)]
    [[SpatialFeature.mk 0 0 [0, 0, 1] 1 (0, 0)]]
    (SpatialFeature.mk 0 0 [0, 0, 1] 1 (0, 0))
    (Or.inl (by decide))

/-! ## C8 -/

/-- C8: the Dedup Engine is reproducible and idempotent over its input set:
the resolved output depends only on the *set* of per-tile candidate cells,
so two runs over any two orderings of the same candidate cells produce the
same surviving (cell_id, originalFOV, assignedFOV) records. -/
theorem C8_dedup_reproducible
    (intersects : SpatialFeature → SpatialFeature → Bool)
    (boxes : List FovBox) (l1 l2 : List SpatialFeature) (h : l1.Perm l2) :
    dedupEngine intersects boxes l1 = dedupEngine intersects boxes l2 := by
  have hs : (simple_clean_cells l1).toFinset =
      (simple_clean_cells l2).toFinset :=
    List.toFinset_eq_of_perm _ _ (h.filter _)
  simp only [dedupEngine, hs]

/-- Witness for C8: two concrete candidate cells presented in either order
resolve to the same record set. -/
theorem C8_witness :
    dedupEngine (fun _ _ => false) []
        [SpatialFeature.mk 1 0 [0, 0, 1, 1] 1 (0, 0),
         SpatialFeature.mk 2 1 [2, 2, 3, 3] 1 (5, 5)] =
      dedupEngine (fun _ _ => false) []
        [SpatialFeature.mk 2 1 [2, 2, 3, 3] 1 (5, 5),
         SpatialFeature.mk 1 0 [0, 0, 1, 1] 1 (0, 0)] :=
  C8_dedup_reproducible (fun _ _ => false) []
    [SpatialFeature.mk 1 0 [0, 0, 1, 1] 1 (0, 0),
     SpatialFeature.mk 2 1 [2, 2, 3, 3] 1 (5, 5)]
    [SpatialFeature.mk 2 1 [2, 2, 3, 3] 1 (5, 5),
     SpatialFeature.mk 1 0 [0, 0, 1, 1] 1 (0, 0)]
    (List.Perm.swap (SpatialFeature.mk 2 1 [2, 2, 3, 3] 1 (5, 5))
      (SpatialFeature.mk 1 0 [0, 0, 1, 1] 1 (0, 0)) [])

end Merlin
